import Mathlib

/-!
Shallow embedding of `src/jsondecoder/structure.py` and verification of its
specification.

The module decodes a parsed JSON value into an object graph
(`JSONDecoder._convert` / `JSONDecoder._new_class`) and prints an indented
structure diagram (`JSONDecoder.print_structure` / `_print_structure`).
Python raised exceptions are rendered as `Except PyError`; a `print` call is
rendered as one emitted line, so the printer returns the list of printed
lines in order.  The runtime values the decoder can meet are Python values:
the constructors of `PyValue` mirror the members of the `_Type` enum, plus
`PyValue.other`, which models a value whose runtime type lies outside the
enum (the `tyName` field stands for the text of that type used in the
`ValueError` message that `_Type(type(data))` raises on lookup failure).
Floats are never inspected by the code, only carried through, so their
payload is modelled by `Rat`.
-/

namespace JSONDecoderPy

/-- Python exceptions raised by the module: `ValueError` (from the `_Type`
enum lookup and from the `indentstep` check) and `TypeError` (the
`raise TypeError` at the end of `_convert`). -/
inductive PyError where
  | valueError (msg : String)
  | typeError (msg : String)
deriving DecidableEq

/-- A Python runtime value as seen by the decoder.  The first seven
constructors are the parsed-JSON kinds (the members of `_Type`); `other`
models a value of any type outside that set. -/
inductive PyValue where
  | none
  | bool (b : Bool)
  | int (n : Int)
  | float (q : Rat)
  | str (s : String)
  | list (xs : List PyValue)
  | dict (kvs : List (String × PyValue))
  | other (tyName : String)

/-- The `_Type` enum of `structure.py`. -/
inductive _Type where
  | NONETYPE
  | LIST
  | DICT
  | STRING
  | INT
  | FLOAT
  | BOOL
deriving DecidableEq

/-- `_Type.is_primitive`: `self in [STRING, INT, FLOAT, BOOL]`. -/
def _Type.is_primitive : _Type → Bool
  | .STRING => true
  | .INT => true
  | .FLOAT => true
  | .BOOL => true
  | _ => false

/-- `_Type.is_none`: `self == _Type.NONETYPE`. -/
def _Type.is_none (t : _Type) : Bool := t == .NONETYPE

/-- The enum member name (Python `dtype.name`). -/
def _Type.name : _Type → String
  | .NONETYPE => "NONETYPE"
  | .LIST => "LIST"
  | .DICT => "DICT"
  | .STRING => "STRING"
  | .INT => "INT"
  | .FLOAT => "FLOAT"
  | .BOOL => "BOOL"

/-- The `__name__` of the underlying Python type (Python
`dtype.value.__name__`). -/
def _Type.valueName : _Type → String
  | .NONETYPE => "NoneType"
  | .LIST => "list"
  | .DICT => "dict"
  | .STRING => "str"
  | .INT => "int"
  | .FLOAT => "float"
  | .BOOL => "bool"

/-- `_Type(type(data))`: enum lookup of the runtime type.  Each `PyValue`
constructor determines the member; a type outside the enum raises
`ValueError(f"{type} is not a valid _Type")`. -/
def typeLookup : PyValue → Except PyError _Type
  | .none => .ok .NONETYPE
  | .bool _ => .ok .BOOL
  | .int _ => .ok .INT
  | .float _ => .ok .FLOAT
  | .str _ => .ok .STRING
  | .list _ => .ok .LIST
  | .dict _ => .ok .DICT
  | .other ty => .error (.valueError (ty ++ " is not a valid _Type"))

/-- The image of a JSON value under `_convert`: primitives and `None` map to
themselves, a list to the list of converted elements, a dict to the class
synthesized by `_new_class` (its name and its attribute list in `setattr`
order). -/
inductive Converted where
  | none
  | bool (b : Bool)
  | int (n : Int)
  | float (q : Rat)
  | str (s : String)
  | list (xs : List Converted)
  | class_ (clsName : String) (attrs : List (String × Converted))

/-- The name of a synthesized class, when the value is one. -/
def Converted.clsName : Converted → Option String
  | .class_ n _ => some n
  | _ => Option.none

/-- The `_KeyValue` class: a key paired with a (converted) value. -/
structure _KeyValue where
  key : String
  value : Converted

/-- `_KeyValue.asiterable`: the pair as a tuple. -/
def _KeyValue.asiterable (kv : _KeyValue) : String × Converted := (kv.key, kv.value)

/-- Python `str.capitalize()` (ASCII): first character uppercased, every
remaining character lowercased. -/
def pyCapitalize (s : String) : String :=
  match s.data with
  | [] => ""
  | c :: rest => String.mk (c.toUpper :: rest.map Char.toLower)

/-- `setattr(class_, k, v)` on the attribute list of a synthesized class:
overwrite the attribute if the name is already present, otherwise append
it. -/
def setAttr (attrs : List (String × Converted)) (k : String) (v : Converted) :
    List (String × Converted) :=
  if attrs.any (fun p => p.1 == k) then
    attrs.map (fun p => if p.1 == k then (k, v) else p)
  else attrs ++ [(k, v)]

mutual

/-- `JSONDecoder._convert(key, data)`.  The dispatch on
`dtype = _Type(type(data))` is rendered as the match on the constructor of
`data`, which determines `dtype`:
primitive or `None` kinds return the value unchanged with the key; `LIST`
converts every element with the same key (the list comprehension, left to
right, propagating the first raised error); `DICT` delegates to
`_new_class`; any other runtime type raises the `ValueError` from the enum
lookup itself.  The trailing `raise TypeError` of the source is unreachable:
every enum member is covered by one of the preceding branches. -/
def _convert (key : String) (data : PyValue) : Except PyError _KeyValue :=
  match data with
  | .none => .ok ⟨key, .none⟩
  | .bool b => .ok ⟨key, .bool b⟩
  | .int n => .ok ⟨key, .int n⟩
  | .float q => .ok ⟨key, .float q⟩
  | .str s => .ok ⟨key, .str s⟩
  | .list xs => do
      let ys ← convertElems key xs
      .ok ⟨key, .list ys⟩
  | .dict kvs => do
      let c ← _new_class key kvs
      .ok ⟨key, c⟩
  | .other ty => .error (.valueError (ty ++ " is not a valid _Type"))
termination_by (sizeOf data, 0)

/-- The list comprehension
`[JSONDecoder._convert(key, item).value for item in data]`. -/
def convertElems (key : String) (data : List PyValue) : Except PyError (List Converted) :=
  match data with
  | [] => .ok []
  | item :: rest => do
      let kv ← _convert key item
      let ys ← convertElems key rest
      .ok (kv.value :: ys)
termination_by (sizeOf data, 0)

/-- `JSONDecoder._new_class(name, data)`:
`class_ = type(name.capitalize(), (), {})`, then one `setattr` per converted
entry, in insertion order. -/
def _new_class (name : String) (data : List (String × PyValue)) : Except PyError Converted := do
  let attrs ← classAttrs data []
  .ok (.class_ (pyCapitalize name) attrs)
termination_by (sizeOf data, 1)

/-- The `setattr` loop of `_new_class` over the remaining entries, with the
attributes accumulated so far. -/
def classAttrs (data : List (String × PyValue)) (acc : List (String × Converted)) :
    Except PyError (List (String × Converted)) :=
  match data with
  | [] => .ok acc
  | (k, v) :: rest => do
      let kv ← _convert k v
      classAttrs rest (setAttr acc kv.key kv.value)
termination_by (sizeOf data, 0)

end

/-- `JSONDecoder.run()`: `_convert("root", data).value`. -/
def run (data : PyValue) : Except PyError Converted := do
  let kv ← _convert "root" data
  .ok kv.value

/-- Python `c * n` for a character: `n` copies, empty when `n = 0` (and the
Python repetition with a negative count is also empty, matching truncated
subtraction on `Nat`). -/
def strRepeat (c : Char) (n : Nat) : String := String.mk (List.replicate n c)

/-- The Python format `f"{s:12s}"` generalized: left-justify `s` in a field
of `w` characters, padding with spaces (no padding when `s` is longer). -/
def ljust (s : String) (w : Nat) : String := s ++ strRepeat ' ' (w - s.length)

/-- Python `str.lower()` (ASCII): every character lowercased. -/
def strLower (s : String) : String := String.mk (s.data.map Char.toLower)

/-- The line printed by `_print_structure` for a primitive node:
`f"{prefix}{name:12s}/{dtype.name.lower()}/"` with
`prefix = ' ' * (indent - 1) + '─'`. -/
def primLine (indent : Nat) (name : String) (dtype : _Type) : String :=
  strRepeat ' ' (indent - 1) ++ "─" ++ ljust name 12 ++ ("/" ++ strLower dtype.name ++ "/")

/-- The line(s) printed by `_print_structure` for a non-primitive node
before descending: `"."` when the name is `"root"`, otherwise
`f"{prefix}{name} /{dtype.value.__name__}/"` with
`prefix = ' ' * (indent - istep) + '└' + '─' * (istep - 1)`. -/
def headLine (istep : Nat) (name : String) (indent : Nat) (dtype : _Type) : List String :=
  if name == "root" then ["."]
  else [strRepeat ' ' (indent - istep) ++ "└" ++ strRepeat '─' (istep - 1) ++
        name ++ (" /" ++ dtype.valueName ++ "/")]

mutual

/-- `JSONDecoder._print_structure(name, value, indent)`, collecting the
printed lines; `istep` is the `self.istep` set by `print_structure`.  As in
`_convert`, the dispatch on `dtype = _Type(type(value))` is the match on the
constructor.  Primitive kinds print their single line and return; `None` is
not primitive, so it falls to the non-primitive branch (the `"."` line at
the root, otherwise the `└`-corner line with type name `NoneType`) and has
no children; dicts and lists print their head line and recurse.  A runtime
type outside the enum raises the lookup `ValueError`. -/
def _print_structure (istep : Nat) (name : String) (value : PyValue) (indent : Nat) :
    Except PyError (List String) :=
  match value with
  | .bool _ => .ok [primLine indent name .BOOL]
  | .int _ => .ok [primLine indent name .INT]
  | .float _ => .ok [primLine indent name .FLOAT]
  | .str _ => .ok [primLine indent name .STRING]
  | .none => .ok (headLine istep name indent .NONETYPE)
  | .dict kvs => do
      let kids ← printDict istep kvs (indent + istep)
      .ok (headLine istep name indent .DICT ++ kids)
  | .list xs => do
      let kids ← printList istep xs 0 (indent + istep)
      .ok (headLine istep name indent .LIST ++ kids)
  | .other ty => .error (.valueError (ty ++ " is not a valid _Type"))
termination_by (sizeOf value, 0)

/-- The dict loop of `_print_structure`:
`for key, value in value.items(): self._print_structure(key, value, indent + self.istep)`
(the child indent is already added by the caller here). -/
def printDict (istep : Nat) (kvs : List (String × PyValue)) (indent : Nat) :
    Except PyError (List String) :=
  match kvs with
  | [] => .ok []
  | (k, v) :: rest => do
      let ls ← _print_structure istep k v indent
      let more ← printDict istep rest indent
      .ok (ls ++ more)
termination_by (sizeOf kvs, 0)

/-- The list loop of `_print_structure`:
`for index, value in enumerate(value): self._print_structure(f"#{index}", value, indent + self.istep)`. -/
def printList (istep : Nat) (xs : List PyValue) (index : Nat) (indent : Nat) :
    Except PyError (List String) :=
  match xs with
  | [] => .ok []
  | v :: rest => do
      let ls ← _print_structure istep ("#" ++ toString index) v indent
      let more ← printList istep rest (index + 1) indent
      .ok (ls ++ more)
termination_by (sizeOf xs, 0)

end

/-- `JSONDecoder.print_structure(indentstep=4)`: raises
`ValueError('indentstep must be at least 1.')` when `indentstep < 1`,
otherwise sets `self.istep = indentstep` and walks from
`('root', self.data, 0)`. -/
def print_structure (data : PyValue) (indentstep : Int := 4) :
    Except PyError (List String) :=
  if indentstep < 1 then .error (.valueError "indentstep must be at least 1.")
  else _print_structure indentstep.toNat "root" data 0

mutual

/-- A value every node of which has a runtime type in the recognized JSON
kind set: exactly what a conformant JSON parser can hand to the decoder. -/
def PyValue.wf : PyValue → Bool
  | .list xs => wfList xs
  | .dict kvs => wfDict kvs
  | .other _ => false
  | _ => true
termination_by v => sizeOf v

/-- `PyValue.wf` on every element of a list. -/
def wfList : List PyValue → Bool
  | [] => true
  | v :: rest => v.wf && wfList rest
termination_by xs => sizeOf xs

/-- `PyValue.wf` on every entry value of a dict. -/
def wfDict : List (String × PyValue) → Bool
  | [] => true
  | (_, v) :: rest => v.wf && wfDict rest
termination_by kvs => sizeOf kvs

end

/-- The value component of a successful conversion; `Converted.none` when the
conversion raises.  Whenever `_convert k v` succeeds its result is
`⟨k, convertValue k v⟩` (see `convert_wf_ok`). -/
def convertValue (k : String) (v : PyValue) : Converted :=
  match _convert k v with
  | .ok kv => kv.value
  | .error _ => .none

/-- Whether a conversion outcome is a raised `TypeError`. -/
def isTypeError {α : Type} : Except PyError α → Bool
  | .error (.typeError _) => true
  | _ => false

/-- The end-to-end example document
`{"name": "Alice", "age": 30, "tags": ["x", "y"]}`. -/
def exampleDoc : PyValue :=
  .dict [("name", .str "Alice"), ("age", .int 30),
         ("tags", .list [.str "x", .str "y"])]

lemma bind_ok_eq {α β : Type} (a : α) (f : α → Except PyError β) :
    (Except.ok a : Except PyError α) >>= f = f a := rfl

lemma bind_error_eq {α β : Type} (e : PyError) (f : α → Except PyError β) :
    (Except.error e : Except PyError α) >>= f = Except.error e := rfl

lemma one_le_sizeOf_pyValue (v : PyValue) : 1 ≤ sizeOf v := by
  cases v <;> simp_arith

lemma one_le_sizeOf_list {α : Type} [SizeOf α] (xs : List α) : 1 ≤ sizeOf xs := by
  cases xs <;> simp_arith

lemma wfList_iff (xs : List PyValue) : wfList xs = true ↔ ∀ v ∈ xs, v.wf = true := by
  induction xs with
  | nil => simp [wfList]
  | cons v rest ih => simp [wfList, ih]

lemma wfDict_iff (kvs : List (String × PyValue)) :
    wfDict kvs = true ↔ ∀ p ∈ kvs, p.2.wf = true := by
  induction kvs with
  | nil => simp [wfDict]
  | cons p rest ih =>
    obtain ⟨k, v⟩ := p
    simp [wfDict, ih]

lemma convert_wf_master : ∀ n : Nat,
    (∀ v : PyValue, sizeOf v ≤ n → v.wf = true → ∀ k,
      ∃ c, _convert k v = .ok ⟨k, c⟩) ∧
    (∀ xs : List PyValue, sizeOf xs ≤ n → wfList xs = true → ∀ k,
      ∃ ys, convertElems k xs = .ok ys) ∧
    (∀ kvs : List (String × PyValue), sizeOf kvs ≤ n → wfDict kvs = true →
      ∀ acc, ∃ attrs, classAttrs kvs acc = .ok attrs) := by
  intro n
  induction n with
  | zero =>
    refine ⟨fun v hv => absurd hv (by have := one_le_sizeOf_pyValue v; omega),
            fun xs hxs => absurd hxs (by have := one_le_sizeOf_list xs; omega),
            fun kvs hkvs => absurd hkvs (by have := one_le_sizeOf_list kvs; omega)⟩
  | succ n ih =>
    obtain ⟨ihv, ihl, ihd⟩ := ih
    refine ⟨?_, ?_, ?_⟩
    · intro v hv hwf k
      cases v with
      | none => exact ⟨.none, by simp [_convert]⟩
      | bool b => exact ⟨.bool b, by simp [_convert]⟩
      | int m => exact ⟨.int m, by simp [_convert]⟩
      | float q => exact ⟨.float q, by simp [_convert]⟩
      | str s => exact ⟨.str s, by simp [_convert]⟩
      | list xs =>
        have hsz : sizeOf xs ≤ n := by simp at hv; omega
        have hw : wfList xs = true := by simpa [PyValue.wf] using hwf
        obtain ⟨ys, hys⟩ := ihl xs hsz hw k
        exact ⟨.list ys, by simp [_convert, hys, bind_ok_eq]⟩
      | dict kvs =>
        have hsz : sizeOf kvs ≤ n := by simp at hv; omega
        have hw : wfDict kvs = true := by simpa [PyValue.wf] using hwf
        obtain ⟨attrs, hattrs⟩ := ihd kvs hsz hw []
        exact ⟨.class_ (pyCapitalize k) attrs,
          by simp [_convert, _new_class, hattrs, bind_ok_eq]⟩
      | other ty => simp [PyValue.wf] at hwf
    · intro xs hxs hwf k
      cases xs with
      | nil => exact ⟨[], by simp [convertElems]⟩
      | cons v rest =>
        have h1 : sizeOf v ≤ n := by simp at hxs; omega
        have h2 : sizeOf rest ≤ n := by simp at hxs; omega
        have hw : v.wf = true ∧ wfList rest = true := by
          simpa [wfList, Bool.and_eq_true] using hwf
        obtain ⟨c, hc⟩ := ihv v h1 hw.1 k
        obtain ⟨ys, hys⟩ := ihl rest h2 hw.2 k
        exact ⟨c :: ys, by simp [convertElems, hc, hys, bind_ok_eq]⟩
    · intro kvs hkvs hwf acc
      cases kvs with
      | nil => exact ⟨acc, by simp [classAttrs]⟩
      | cons p rest =>
        obtain ⟨k, v⟩ := p
        have h1 : sizeOf v ≤ n := by simp at hkvs; omega
        have h2 : sizeOf rest ≤ n := by simp at hkvs; omega
        have hw : v.wf = true ∧ wfDict rest = true := by
          simpa [wfDict, Bool.and_eq_true] using hwf
        obtain ⟨c, hc⟩ := ihv v h1 hw.1 k
        obtain ⟨attrs, hattrs⟩ := ihd rest h2 hw.2 (setAttr acc k c)
        exact ⟨attrs, by simp [classAttrs, hc, hattrs, bind_ok_eq]⟩

lemma convert_wf_ok (v : PyValue) (hwf : v.wf = true) (k : String) :
    _convert k v = .ok ⟨k, convertValue k v⟩ := by
  obtain ⟨c, hc⟩ := (convert_wf_master (sizeOf v)).1 v le_rfl hwf k
  simp [convertValue, hc]

lemma convertElems_eq (k : String) (xs : List PyValue)
    (hwf : ∀ v ∈ xs, v.wf = true) :
    convertElems k xs = .ok (xs.map (convertValue k)) := by
  induction xs with
  | nil => simp [convertElems]
  | cons v rest ih =>
    simp only [convertElems]
    rw [convert_wf_ok v (hwf v (by simp)) k, bind_ok_eq,
        ih (fun u hu => hwf u (by simp [hu])), bind_ok_eq]
    simp

lemma setAttr_append (attrs : List (String × Converted)) (k : String) (v : Converted)
    (h : ∀ p ∈ attrs, p.1 ≠ k) : setAttr attrs k v = attrs ++ [(k, v)] := by
  have hany : attrs.any (fun p => p.1 == k) = false := by
    rw [List.any_eq_false]
    intro p hp
    simpa using h p hp
  simp [setAttr, hany]

lemma classAttrs_eq (kvs : List (String × PyValue)) :
    ∀ acc : List (String × Converted),
      (∀ p ∈ kvs, p.2.wf = true) →
      (kvs.map Prod.fst).Nodup →
      (∀ p ∈ kvs, ∀ q ∈ acc, q.1 ≠ p.1) →
      classAttrs kvs acc =
        .ok (acc ++ kvs.map (fun p => (p.1, convertValue p.1 p.2))) := by
  induction kvs with
  | nil => intro acc _ _ _; simp [classAttrs]
  | cons p rest ih =>
    obtain ⟨k, v⟩ := p
    intro acc hwf hnd hdisj
    have hnd' : (rest.map Prod.fst).Nodup := (List.nodup_cons.mp (by simpa using hnd)).2
    have hk_not : k ∉ rest.map Prod.fst := (List.nodup_cons.mp (by simpa using hnd)).1
    simp only [classAttrs]
    rw [convert_wf_ok v (hwf (k, v) (by simp)) k, bind_ok_eq]
    rw [setAttr_append acc k _ (fun q hq => hdisj (k, v) (by simp) q hq)]
    rw [ih (acc ++ [(k, convertValue k v)]) (fun p hp => hwf p (by simp [hp])) hnd' ?_]
    · simp
    · intro p hp q hq
      rcases List.mem_append.mp hq with hq | hq
      · exact hdisj p (by simp [hp]) q hq
      · have hqe : q = (k, convertValue k v) := by simpa using hq
        subst hqe
        intro hcontra
        exact hk_not (by rw [show k = p.1 from hcontra]; exact List.mem_map_of_mem Prod.fst hp)

lemma print_wf_master : ∀ n : Nat,
    (∀ v : PyValue, sizeOf v ≤ n → v.wf = true → ∀ istep name indent,
      ∃ ls, _print_structure istep name v indent = .ok ls) ∧
    (∀ xs : List PyValue, sizeOf xs ≤ n → wfList xs = true → ∀ istep index indent,
      ∃ ls, printList istep xs index indent = .ok ls) ∧
    (∀ kvs : List (String × PyValue), sizeOf kvs ≤ n → wfDict kvs = true →
      ∀ istep indent, ∃ ls, printDict istep kvs indent = .ok ls) := by
  intro n
  induction n with
  | zero =>
    refine ⟨fun v hv => absurd hv (by have := one_le_sizeOf_pyValue v; omega),
            fun xs hxs => absurd hxs (by have := one_le_sizeOf_list xs; omega),
            fun kvs hkvs => absurd hkvs (by have := one_le_sizeOf_list kvs; omega)⟩
  | succ n ih =>
    obtain ⟨ihv, ihl, ihd⟩ := ih
    refine ⟨?_, ?_, ?_⟩
    · intro v hv hwf istep name indent
      cases v with
      | none => exact ⟨headLine istep name indent .NONETYPE, by simp [_print_structure]⟩
      | bool b => exact ⟨[primLine indent name .BOOL], by simp [_print_structure]⟩
      | int m => exact ⟨[primLine indent name .INT], by simp [_print_structure]⟩
      | float q => exact ⟨[primLine indent name .FLOAT], by simp [_print_structure]⟩
      | str s => exact ⟨[primLine indent name .STRING], by simp [_print_structure]⟩
      | list xs =>
        have hsz : sizeOf xs ≤ n := by simp at hv; omega
        have hw : wfList xs = true := by simpa [PyValue.wf] using hwf
        obtain ⟨ls, hls⟩ := ihl xs hsz hw istep 0 (indent + istep)
        exact ⟨headLine istep name indent .LIST ++ ls,
          by simp [_print_structure, hls, bind_ok_eq]⟩
      | dict kvs =>
        have hsz : sizeOf kvs ≤ n := by simp at hv; omega
        have hw : wfDict kvs = true := by simpa [PyValue.wf] using hwf
        obtain ⟨ls, hls⟩ := ihd kvs hsz hw istep (indent + istep)
        exact ⟨headLine istep name indent .DICT ++ ls,
          by simp [_print_structure, hls, bind_ok_eq]⟩
      | other ty => simp [PyValue.wf] at hwf
    · intro xs hxs hwf istep index indent
      cases xs with
      | nil => exact ⟨[], by simp [printList]⟩
      | cons v rest =>
        have h1 : sizeOf v ≤ n := by simp at hxs; omega
        have h2 : sizeOf rest ≤ n := by simp at hxs; omega
        have hw : v.wf = true ∧ wfList rest = true := by
          simpa [wfList, Bool.and_eq_true] using hwf
        obtain ⟨ls, hls⟩ := ihv v h1 hw.1 istep ("#" ++ toString index) indent
        obtain ⟨more, hmore⟩ := ihl rest h2 hw.2 istep (index + 1) indent
        exact ⟨ls ++ more, by simp [printList, hls, hmore, bind_ok_eq]⟩
    · intro kvs hkvs hwf istep indent
      cases kvs with
      | nil => exact ⟨[], by simp [printDict]⟩
      | cons p rest =>
        obtain ⟨k, v⟩ := p
        have h1 : sizeOf v ≤ n := by simp at hkvs; omega
        have h2 : sizeOf rest ≤ n := by simp at hkvs; omega
        have hw : v.wf = true ∧ wfDict rest = true := by
          simpa [wfDict, Bool.and_eq_true] using hwf
        obtain ⟨ls, hls⟩ := ihv v h1 hw.1 istep k indent
        obtain ⟨more, hmore⟩ := ihd rest h2 hw.2 istep indent
        exact ⟨ls ++ more, by simp [printDict, hls, hmore, bind_ok_eq]⟩

/-- C1: converting a mapping with distinct keys and well-formed entry values
yields a record whose attribute list carries exactly the mapping's keys, in
order and verbatim (no keys collapse, no extra fields appear), each valued
by the recursive conversion of the corresponding entry value. -/
theorem convert_dict_field_set (name : String) (kvs : List (String × PyValue))
    (hwf : ∀ p ∈ kvs, p.2.wf = true)
    (hnd : (kvs.map Prod.fst).Nodup) :
    _convert name (.dict kvs) =
      .ok ⟨name, .class_ (pyCapitalize name)
        (kvs.map (fun p => (p.1, convertValue p.1 p.2)))⟩ ∧
    (kvs.map (fun p => (p.1, convertValue p.1 p.2))).map Prod.fst = kvs.map Prod.fst ∧
    ∀ p ∈ kvs, _convert p.1 p.2 = .ok ⟨p.1, convertValue p.1 p.2⟩ := by
  refine ⟨?_, ?_, fun p hp => convert_wf_ok p.2 (hwf p hp) p.1⟩
  · simp only [_convert, _new_class]
    rw [classAttrs_eq kvs [] hwf hnd (by simp)]
    rfl
  · simp [List.map_map, Function.comp]

/-- Witness for `convert_dict_field_set` at the spec's example mapping. -/
theorem convert_dict_field_set_witness :
    _convert "root" (.dict [("a", .int 1), ("b", .dict [("c", .int 2)])]) =
      .ok ⟨"root", .class_ "Root" [("a", .int 1), ("b", .class_ "B" [("c", .int 2)])]⟩ := by
  have h := convert_dict_field_set "root" [("a", .int 1), ("b", .dict [("c", .int 2)])]
    (by intro p hp; fin_cases hp <;> simp [PyValue.wf, wfDict])
    (by decide)
  rw [h.1]
  simp only [List.map, convertValue, _convert, _new_class, classAttrs, setAttr, bind_ok_eq]
  rfl

/-- C2: converting a primitive (boolean, integer, float, string) or null
value returns the value itself unchanged, paired with the label. -/
theorem convert_primitive_id :
    (∀ k, _convert k .none = .ok ⟨k, .none⟩) ∧
    (∀ k b, _convert k (.bool b) = .ok ⟨k, .bool b⟩) ∧
    (∀ k n, _convert k (.int n) = .ok ⟨k, .int n⟩) ∧
    (∀ k q, _convert k (.float q) = .ok ⟨k, .float q⟩) ∧
    (∀ k s, _convert k (.str s) = .ok ⟨k, .str s⟩) := by
  refine ⟨fun k => ?_, fun k b => ?_, fun k n => ?_, fun k q => ?_, fun k s => ?_⟩ <;>
    simp [_convert]

/-- C3: converting a sequence of well-formed values yields a sequence of the
same length whose i-th element is the conversion of the i-th input element,
in the original order, every element converted under the parent's own
label. -/
theorem convert_list_elementwise (k : String) (xs : List PyValue)
    (hwf : ∀ v ∈ xs, v.wf = true) :
    _convert k (.list xs) = .ok ⟨k, .list (xs.map (convertValue k))⟩ ∧
    (xs.map (convertValue k)).length = xs.length ∧
    ∀ v ∈ xs, _convert k v = .ok ⟨k, convertValue k v⟩ := by
  refine ⟨?_, by simp, fun v hv => convert_wf_ok v (hwf v hv) k⟩
  simp only [_convert]
  rw [convertElems_eq k xs hwf, bind_ok_eq]

/-- Witness for `convert_list_elementwise` at the spec's example sequence. -/
theorem convert_list_elementwise_witness :
    _convert "k" (.list [.int 1, .int 2, .int 3]) =
      .ok ⟨"k", .list [.int 1, .int 2, .int 3]⟩ := by
  have h := convert_list_elementwise "k" [.int 1, .int 2, .int 3]
    (by intro v hv; fin_cases hv <;> simp [PyValue.wf])
  rw [h.1]
  simp only [List.map, convertValue, _convert]

/-- C4 counterexample: a null node is not printed with the one-line
primitive shape of `(indent - 1)` spaces, `─`, 12-wide label and lowercase
type tag; it takes the non-primitive branch and is tagged `/NoneType/`. -/
theorem print_null_line_cex :
    _print_structure 4 "k" .none 4 = .ok ["└───k /NoneType/"] ∧
    ("└───k /NoneType/" : String) ≠ "   ─k           /nonetype/" := by
  constructor
  · simp only [_print_structure]
    rfl
  · decide

/-- C4 amended: for every primitive node (boolean, integer, float, string —
null is not in `_Type.is_primitive`) the printer emits exactly one line made
of `(indent - 1)` spaces, the `─` connector, the label left-justified to a
12-character field, and the lowercase type tag in slashes; a null node
instead takes the non-primitive branch: the `"."` line when its label is
`"root"`, otherwise the `└`-corner line tagged `/NoneType/`, with no
children. -/
theorem print_primitive_line_shape (istep : Nat) (name : String) (indent : Nat) :
    (∀ b : Bool, _print_structure istep name (.bool b) indent =
      .ok [strRepeat ' ' (indent - 1) ++ "─" ++ ljust name 12 ++ "/bool/"]) ∧
    (∀ n : Int, _print_structure istep name (.int n) indent =
      .ok [strRepeat ' ' (indent - 1) ++ "─" ++ ljust name 12 ++ "/int/"]) ∧
    (∀ q : Rat, _print_structure istep name (.float q) indent =
      .ok [strRepeat ' ' (indent - 1) ++ "─" ++ ljust name 12 ++ "/float/"]) ∧
    (∀ s : String, _print_structure istep name (.str s) indent =
      .ok [strRepeat ' ' (indent - 1) ++ "─" ++ ljust name 12 ++ "/string/"]) ∧
    (_print_structure istep name .none indent =
      .ok (if name == "root" then ["."]
        else [strRepeat ' ' (indent - istep) ++ "└" ++ strRepeat '─' (istep - 1) ++
              name ++ " /NoneType/"])) := by
  refine ⟨fun b => ?_, fun n => ?_, fun q => ?_, fun s => ?_, ?_⟩ <;>
    simp only [_print_structure, primLine, headLine, _Type.name, _Type.valueName]
  · rw [show ("/" ++ strLower "BOOL" ++ "/" : String) = "/bool/" from rfl]
  · rw [show ("/" ++ strLower "INT" ++ "/" : String) = "/int/" from rfl]
  · rw [show ("/" ++ strLower "FLOAT" ++ "/" : String) = "/float/" from rfl]
  · rw [show ("/" ++ strLower "STRING" ++ "/" : String) = "/string/" from rfl]
  · rw [show (" /" ++ "NoneType" ++ "/" : String) = " /NoneType/" from rfl]

/-- C5: print_structure raises the `indentstep` ValueError for every
indentstep < 1, and succeeds, walking the whole well-formed document, for
every indentstep ≥ 1. -/
theorem print_structure_indentstep_contract (v : PyValue) (n : Int) (hwf : v.wf = true) :
    (n < 1 → print_structure v n = .error (.valueError "indentstep must be at least 1.")) ∧
    (1 ≤ n → ∃ lines, print_structure v n = .ok lines) := by
  constructor
  · intro hn
    unfold print_structure
    rw [if_pos hn]
  · intro hn
    obtain ⟨ls, hls⟩ := (print_wf_master (sizeOf v)).1 v le_rfl hwf n.toNat "root" 0
    refine ⟨ls, ?_⟩
    unfold print_structure
    rw [if_neg (by omega)]
    exact hls

/-- Witness for `print_structure_indentstep_contract`: indentstep 0 raises,
indentstep 4 succeeds, on the document `5`. -/
theorem print_structure_indentstep_contract_witness :
    print_structure (.int 5) 0 = .error (.valueError "indentstep must be at least 1.") ∧
    (print_structure (.int 5) 4).isOk = true := by
  constructor
  · exact (print_structure_indentstep_contract (.int 5) 0 (by simp [PyValue.wf])).1 (by decide)
  · obtain ⟨ls, hls⟩ :=
      (print_structure_indentstep_contract (.int 5) 4 (by simp [PyValue.wf])).2 (by decide)
    simp [hls, Except.isOk, Except.toBool]

/-- C6 counterexample: the synthesized record type name is the key passed
through Python str.capitalize, which also lowercases every character after
the first: the key "aB" yields the class name "Ab", not "AB" (first letter
capitalized, tail untouched) as the claim requires. -/
theorem new_class_capitalize_cex :
    _new_class "aB" [] = .ok (.class_ "Ab" []) ∧ ("Ab" : String) ≠ "AB" := by
  constructor
  · simp only [_new_class, classAttrs, bind_ok_eq]
    rfl
  · decide

/-- C6 amended: the synthesized record type's name is the key under which
the mapping was found, with its first character uppercased and every
remaining character lowercased (Python str.capitalize). -/
theorem new_class_name_capitalized :
    (∀ name kvs c, _new_class name kvs = .ok c → c.clsName = some (pyCapitalize name)) ∧
    (∀ (ch : Char) (tail : List Char),
      pyCapitalize (String.mk (ch :: tail)) = String.mk (ch.toUpper :: tail.map Char.toLower)) := by
  constructor
  · intro name kvs c hc
    simp only [_new_class] at hc
    cases h : classAttrs kvs [] with
    | ok attrs =>
      rw [h, bind_ok_eq] at hc
      cases hc
      rfl
    | error e =>
      rw [h, bind_error_eq] at hc
      cases hc
  · intro ch tail
    simp [pyCapitalize]

/-- Witness for `new_class_name_capitalized` at the empty mapping under key
"x". -/
theorem new_class_name_capitalized_witness :
    Converted.clsName (.class_ "X" []) = some (pyCapitalize "x") :=
  new_class_name_capitalized.1 "x" [] (.class_ "X" [])
    (by simp only [_new_class, classAttrs, bind_ok_eq]; rfl)

/-- C7 counterexample: a value of unrecognized runtime kind makes `_convert`
fail with the ValueError raised by the `_Type` enum lookup, not with a
TypeError: the `raise TypeError` branch is never reached. -/
theorem convert_unsupported_cex :
    _convert "k" (.other "set") = .error (.valueError "set is not a valid _Type") ∧
    isTypeError (_convert "k" (.other "set")) = false := by
  constructor <;> simp [_convert, isTypeError]

/-- C7 amended: for every value whose runtime kind is outside the recognized
JSON kind set, conversion fails with the enum-lookup ValueError whose
message names the offending kind; no TypeError is raised. -/
theorem convert_unsupported_value_error (k ty : String) :
    _convert k (.other ty) = .error (.valueError (ty ++ " is not a valid _Type")) ∧
    isTypeError (_convert k (.other ty)) = false := by
  constructor <;> simp [_convert, isTypeError]

/-- C8 counterexample: on the end-to-end example document the string leaves
are tagged `/string/` (the lowercased enum member name STRING), so the `#0`
leaf line differs from the `/str/`-tagged line the claim describes. -/
theorem print_example_str_tag_cex :
    print_structure exampleDoc 4 =
      .ok [".", "   ─name        /string/", "   ─age         /int/", "└───tags /list/",
           "       ─#0          /string/", "       ─#1          /string/"] ∧
    ("       ─#0          /string/" : String) ≠ "       ─#0          /str/" := by
  constructor
  · unfold print_structure
    rw [if_neg (by decide)]
    simp only [exampleDoc, _print_structure, printDict, printList, primLine, headLine,
               bind_ok_eq]
    rfl
  · decide

/-- C8 amended: the example document `{"name": "Alice", "age": 30, "tags":
["x","y"]}` printed with indentstep 4 yields, in order: the root `.` line,
the `name` leaf line tagged `/string/`, the `age` leaf line tagged `/int/`,
the `└───tags /list/` composite line, and the `#0` and `#1` leaf lines
tagged `/string/`, each indented one level (4 columns) deeper than the
level of `name` and `age`. -/
theorem print_example_output :
    print_structure exampleDoc 4 =
      .ok [".", "   ─name        /string/", "   ─age         /int/", "└───tags /list/",
           "       ─#0          /string/", "       ─#1          /string/"] := by
  unfold print_structure
  rw [if_neg (by decide)]
  simp only [exampleDoc, _print_structure, printDict, printList, primLine, headLine,
             bind_ok_eq]
  rfl

/-- C10: calling print_structure with the indentation argument omitted is
identical to calling it with indentstep = 4 — the declared default step
width is 4. -/
theorem print_structure_default_eq_four (v : PyValue) :
    print_structure v = print_structure v 4 := rfl

end JSONDecoderPy
